import Mathlib

/-!
Verification of the westfield protocol-bridge core against its design
specification.  The repository ships the public headers (`wayland-util.h`,
`westfield-xwayland.h`) and the transport example `ExampleWS.java`; the
implementation bodies of the wire codec, object registry, connection
multiplexer, XWayland lifecycle controller and `wl_list` operations are not
part of the provided sources, so those operations are modelled from the
specification and header documentation, faithfully to their words.  The
Java transport adapter is embedded directly from `ExampleWS.java`.
-/

namespace Wire

/-- Argument kinds of a message signature, one per symbol of a
`wl_message` signature string (`i`, `u`, `f`, `s`, `o`, `n`, `a`, `h`);
see the `wl_message` documentation in `wayland-util.h`. -/
inductive ArgKind
  | int
  | uint
  | fixed
  | str
  | obj
  | newId
  | arr
  | fd
deriving DecidableEq, Repr

/-- Decoded argument values of the transport-agnostic message form.
Numeric values are the raw 32-bit words (as `Nat` below `2 ^ 32`);
strings and arrays are byte lists; a descriptor-reference (`fd`)
carries no inline bytes in the native form. -/
inductive ArgVal
  | intV (v : Nat)
  | uintV (v : Nat)
  | fixedV (v : Nat)
  | strV (s : List Nat)
  | objV (id : Nat)
  | newIdV (id : Nat)
  | arrV (a : List Nat)
  | fdV
deriving DecidableEq, Repr

/-- Transport-agnostic message: sender object id, opcode, decoded
argument list. -/
structure Message where
  senderId : Nat
  opcode : Nat
  args : List ArgVal
deriving DecidableEq, Repr

/-- Modelled from the spec: errors of the wire codec (spec section 4.1);
the codec implementation is absent from the provided sources. -/
inductive DecodeError
  | malformedMessage
  | unknownObject
  | unknownOpcode
deriving DecidableEq, Repr

/-- Little-endian 4-byte encoding of a 32-bit word. -/
def u32le (v : Nat) : List Nat :=
  [v % 256, v / 256 % 256, v / 256 ^ 2 % 256, v / 256 ^ 3 % 256]

/-- Read a little-endian 32-bit word from the front of a byte list. -/
def readU32 : List Nat → Option (Nat × List Nat)
  | b0 :: b1 :: b2 :: b3 :: rest => some (b0 + 256 * (b1 + 256 * (b2 + 256 * b3)), rest)
  | _ => none

/-- Number of padding bytes required to reach a 4-byte boundary. -/
def pad4 (n : Nat) : Nat := (4 - n % 4) % 4

/-- Modelled from the spec: native encoding of one argument (spec
section 4.1: fixed 4-byte words; strings and arrays length-prefixed
and padded to a 4-byte boundary; descriptor-references carry no
inline bytes).  The codec implementation is absent from the provided
sources. -/
def encodeArg : ArgVal → List Nat
  | .intV v => u32le v
  | .uintV v => u32le v
  | .fixedV v => u32le v
  | .strV s => u32le s.length ++ s ++ List.replicate (pad4 s.length) 0
  | .objV id => u32le id
  | .newIdV id => u32le id
  | .arrV a => u32le a.length ++ a ++ List.replicate (pad4 a.length) 0
  | .fdV => []

/-- Concatenated encoding of an argument list, left to right. -/
def encodeArgs : List ArgVal → List Nat
  | [] => []
  | a :: rest => encodeArg a ++ encodeArgs rest

/-- Modelled from the spec: native message framing (spec section 4.1: a
32-bit sender object id, then a packed 16-bit opcode and 16-bit total
length, then the arguments).  The opcode occupies the low 16 bits of
the second word and the total length the high 16 bits, little-endian
byte order.  The codec implementation is absent from the provided
sources. -/
def encode (m : Message) : List Nat :=
  let payload := encodeArgs m.args
  u32le m.senderId ++ u32le (m.opcode + (8 + payload.length) * 65536) ++ payload

/-- Modelled from the spec: decoding of one argument per its signature
kind (spec section 4.1); the codec implementation is absent from the
provided sources. -/
def decodeArg (k : ArgKind) (bytes : List Nat) : Option (ArgVal × List Nat) :=
  match k with
  | .int => (readU32 bytes).map (fun p => (.intV p.1, p.2))
  | .uint => (readU32 bytes).map (fun p => (.uintV p.1, p.2))
  | .fixed => (readU32 bytes).map (fun p => (.fixedV p.1, p.2))
  | .obj => (readU32 bytes).map (fun p => (.objV p.1, p.2))
  | .newId => (readU32 bytes).map (fun p => (.newIdV p.1, p.2))
  | .str =>
    match readU32 bytes with
    | none => none
    | some (n, r) =>
      if n + pad4 n ≤ r.length then some (.strV (r.take n), r.drop (n + pad4 n)) else none
  | .arr =>
    match readU32 bytes with
    | none => none
    | some (n, r) =>
      if n + pad4 n ≤ r.length then some (.arrV (r.take n), r.drop (n + pad4 n)) else none
  | .fd => some (.fdV, bytes)

/-- Decode an argument list against a signature's kind list; the
payload must be consumed exactly, trailing bytes are malformed. -/
def decodeArgs : List ArgKind → List Nat → Option (List ArgVal)
  | [], [] => some []
  | [], _ :: _ => none
  | k :: ks, bytes =>
    match decodeArg k bytes with
    | none => none
    | some (v, rest) => (decodeArgs ks rest).map (v :: ·)

/-- Modelled from the spec: `decode(bytes, signature_table) ->
(Message, bytes_consumed)` (spec section 4.1).  Reads the header,
fails with `MalformedMessage` when the declared length disagrees with
the bytes available, with `UnknownObject` when the sender id is not
registered, with `UnknownOpcode` when no signature matches, and
otherwise decodes the arguments left to right.  The codec
implementation is absent from the provided sources. -/
def decode (bytes : List Nat) (resolve : Nat → Option Nat)
    (table : Nat → Nat → Option (List ArgKind)) :
    Except DecodeError (Message × Nat) :=
  match readU32 bytes with
  | none => .error .malformedMessage
  | some (senderId, rest1) =>
    match readU32 rest1 with
    | none => .error .malformedMessage
    | some (word, rest2) =>
      let opcode := word % 65536
      let size := word / 65536
      if size < 8 ∨ bytes.length < size then .error .malformedMessage
      else
        match resolve senderId with
        | none => .error .unknownObject
        | some ty =>
          match table ty opcode with
          | none => .error .unknownOpcode
          | some kinds =>
            match decodeArgs kinds (rest2.take (size - 8)) with
            | none => .error .malformedMessage
            | some args => .ok (⟨senderId, opcode, args⟩, size)

/-- Bytes consumed by a decode outcome: the declared size on success,
zero on failure (a failed decode leaves the buffer position
unchanged). -/
def consumed (r : Except DecodeError (Message × Nat)) : Nat :=
  match r with
  | .ok p => p.2
  | .error _ => 0

/-- An argument value is well formed for a signature kind: the kinds
match and numeric words and lengths fit in 32 bits. -/
def validArg : ArgVal → ArgKind → Bool
  | .intV v, .int => v < 2 ^ 32
  | .uintV v, .uint => v < 2 ^ 32
  | .fixedV v, .fixed => v < 2 ^ 32
  | .strV s, .str => s.length < 2 ^ 32
  | .objV id, .obj => id < 2 ^ 32
  | .newIdV id, .newId => id < 2 ^ 32
  | .arrV a, .arr => a.length < 2 ^ 32
  | .fdV, .fd => true
  | _, _ => false

/-- Pointwise well-formedness of an argument list against a kind list,
with equal arity. -/
def validArgs : List ArgVal → List ArgKind → Bool
  | [], [] => true
  | a :: as, k :: ks => validArg a k && validArgs as ks
  | _, _ => false

end Wire

namespace Registry

/-- Modelled from the spec: upper bound of the client-allocatable id
range (spec section 3: server-allocated ids start above the client
range); the registry implementation is absent from the provided
sources. -/
def clientIdMax : Nat := 0xFEFFFFFF

/-- First server-allocatable id, just above the client range. -/
def serverIdMin : Nat := 0xFF000000

/-- Modelled from the spec: a per-connection object registry mapping
live object ids to their type tag, plus the monotonically increasing
counter for server-allocated ids (spec sections 3 and 4.2); the
registry implementation is absent from the provided sources. -/
structure Reg where
  entries : List (Nat × Nat)
  nextServerId : Nat
deriving DecidableEq, Repr

/-- Empty registry of a fresh connection. -/
def initReg : Reg := ⟨[], serverIdMin⟩

/-- Registry operation errors (spec section 4.2). -/
inductive RegError
  | idCollision
  | unknownId
deriving DecidableEq, Repr

/-- Modelled from the spec: `resolve(id) -> Option type` (spec
section 4.2); the registry implementation is absent from the provided
sources. -/
def resolve (r : Reg) (id : Nat) : Option Nat :=
  (r.entries.find? (fun e => e.1 == id)).map (·.2)

/-- Modelled from the spec: `register(id, type)`, failing with
`IdCollision` when the id is already live (spec section 4.2); the
registry implementation is absent from the provided sources. -/
def register (r : Reg) (id ty : Nat) : Except RegError Reg :=
  match resolve r id with
  | some _ => .error .idCollision
  | none => .ok ⟨(id, ty) :: r.entries, r.nextServerId⟩

/-- Modelled from the spec: `destroy(id)`, failing with `UnknownId`
when the id is not live (spec section 4.2); the registry
implementation is absent from the provided sources. -/
def destroy (r : Reg) (id : Nat) : Except RegError Reg :=
  match resolve r id with
  | none => .error .unknownId
  | some _ => .ok ⟨r.entries.filter (fun e => e.1 != id), r.nextServerId⟩

/-- Modelled from the spec: `allocate_server_id()`, issuing the next
counter value as a live server object of the given type and bumping
the counter (spec sections 3 and 4.2); the registry implementation is
absent from the provided sources. -/
def allocServerId (r : Reg) (ty : Nat) : Nat × Reg :=
  (r.nextServerId, ⟨(r.nextServerId, ty) :: r.entries, r.nextServerId + 1⟩)

/-- One registry operation, as permitted by the spec: registering a
client-allocated id (spec section 3 requires caller-supplied ids to
fall in the client-allocatable range), destroying a live id, or
allocating a server id. -/
inductive Step : Reg → Reg → Prop
  | registerStep {r : Reg} (id ty : Nat) {r' : Reg} :
      id ≤ clientIdMax → register r id ty = .ok r' → Step r r'
  | destroyStep {r : Reg} (id : Nat) {r' : Reg} :
      destroy r id = .ok r' → Step r r'
  | allocStep (r : Reg) (ty : Nat) : Step r (allocServerId r ty).2

/-- Registry states reachable from the empty registry by legal
operation sequences. -/
def Reachable (r : Reg) : Prop := Relation.ReflTransGen Step initReg r

/-- Registry invariant: the counter stays in the server range, live
ids are pairwise distinct, and every live id is either a client-range
id or a previously issued counter value. -/
def Inv (r : Reg) : Prop :=
  serverIdMin ≤ r.nextServerId ∧
  (r.entries.map Prod.fst).Nodup ∧
  ∀ e ∈ r.entries, e.1 ≤ clientIdMax ∨ e.1 < r.nextServerId

end Registry

namespace Mux

/-- Modelled from the spec: registry validation of a decoded message —
the sender id and every object-reference argument must be live in the
originating connection's registry (spec sections 3 and 4.4); the
multiplexer implementation is absent from the provided sources. -/
def validateMessage (r : Registry.Reg) (m : Wire.Message) : Bool :=
  (Registry.resolve r m.senderId).isSome &&
  m.args.all (fun a =>
    match a with
    | .objV id => (Registry.resolve r id).isSome
    | _ => true)

/-- Outcome of routing one inbound frame: forwarded to the native
side, rejected by the codec, or dropped by registry validation (the
connection is closed). -/
inductive RouteResult
  | forwarded (m : Wire.Message)
  | rejected (e : Wire.DecodeError)
  | invalid
deriving DecidableEq, Repr

/-- Modelled from the spec: routing of an inbound frame on one
connection — decode against the connection's registry, validate every
referenced object id, and only then forward (spec section 4.4); the
multiplexer implementation is absent from the provided sources. -/
def route (r : Registry.Reg) (table : Nat → Nat → Option (List Wire.ArgKind))
    (bytes : List Nat) : RouteResult :=
  match Wire.decode bytes (Registry.resolve r) table with
  | .error e => .rejected e
  | .ok (m, _) => if validateMessage r m then .forwarded m else .invalid

/-- Modelled from the spec: the multiplexer state, one connection (its
registry) per handle (spec section 4.4); the multiplexer
implementation is absent from the provided sources. -/
structure MuxState where
  conns : List (Nat × Registry.Reg)
deriving Repr

/-- Modelled from the spec: `route(ConnectionHandle, bytes)` — look up
the connection and route the frame against its own registry (spec
section 4.4); the multiplexer implementation is absent from the
provided sources. -/
def routeConn (s : MuxState) (h : Nat)
    (table : Nat → Nat → Option (List Wire.ArgKind)) (bytes : List Nat) :
    Option RouteResult :=
  ((s.conns.find? (fun c => c.1 == h)).map (·.2)).map (fun r => route r table bytes)

end Mux

namespace XW

/-- Modelled from the spec: the XWayland lifecycle state machine
`Idle -> Starting -> Running -> Terminating -> Idle` (spec
section 4.5); the controller implementation behind
`setup_xwayland` in `westfield-xwayland.h` is absent from the
provided sources. -/
inductive XWState
  | idle
  | starting
  | running (display : Nat)
  | terminating
deriving DecidableEq, Repr

/-- XWayland lifecycle errors (spec section 4.5). -/
inductive XWError
  | alreadyActive
  | startupTimeout
deriving DecidableEq, Repr

/-- Controller state: the lifecycle state plus the list of ready
notifications (display numbers) delivered so far. -/
structure Controller where
  state : XWState
  readySent : List Nat
deriving DecidableEq, Repr

/-- Fresh controller, no session active. -/
def initController : Controller := ⟨.idle, []⟩

/-- Modelled from the spec: a start request — launches only from
`Idle`; a request while not `Idle` is rejected with `AlreadyActive`
rather than queued (spec section 4.5); the controller implementation
is absent from the provided sources. -/
def start (c : Controller) : Except XWError Controller :=
  match c.state with
  | .idle => .ok ⟨.starting, c.readySent⟩
  | _ => .error .alreadyActive

/-- Modelled from the spec: readiness handshake — when the server
signals its display number while `Starting`, the controller enters
`Running` and delivers the ready notification (spec section 4.5); the
controller implementation is absent from the provided sources. -/
def serverReady (c : Controller) (display : Nat) : Controller :=
  match c.state with
  | .starting => ⟨.running display, c.readySent ++ [display]⟩
  | _ => c

end XW

namespace WS

/-- Java `ByteBuffer` as used by `ExampleWS.java`: backing bytes, read
cursor, and limit. -/
structure ByteBuffer where
  data : List Nat
  position : Nat
  limit : Nat
deriving DecidableEq, Repr

/-- Java `ByteBuffer.rewind()`: reset the position to zero. -/
def rewind (b : ByteBuffer) : ByteBuffer := ⟨b.data, 0, b.limit⟩

/-- Java `ByteBuffer.get(byte[n])`: read `n` bytes starting at the
current position. -/
def getBytes (b : ByteBuffer) (n : Nat) : List Nat := (b.data.drop b.position).take n

/-- The send callback installed in `ExampleWS.onConnect`
(`ExampleWS.java` lines 31-37): take the limit, rewind, copy `limit`
bytes, and hand them to `send`. -/
def sendCallback (message : ByteBuffer) : List Nat :=
  let limit := message.limit
  let rw := rewind message
  getBytes rw limit

/-- The westfield client object wrapped by `ExampleWS`; it records the
frames delivered to it via `WClient.on`. -/
structure WClient where
  binaryReceived : List (List Nat)
  textReceived : List String
deriving DecidableEq, Repr

/-- The `ExampleWS` socket: its `wClient` field, `null` (`none`) until
`onConnect` assigns it (`ExampleWS.java` lines 14-38). -/
structure ExampleWS where
  wClient : Option WClient
deriving DecidableEq, Repr

/-- The `ExampleWS` constructor leaves `wClient` at its default
`null`. -/
def mkExampleWS : ExampleWS := ⟨none⟩

/-- `ExampleWS.onConnect`: creates the wrapped `WClient` via
`wServer.create` and assigns it. -/
def onConnect (_ : ExampleWS) : ExampleWS := ⟨some ⟨[], []⟩⟩

/-- Result of a Java call that may throw `NullPointerException`. -/
inductive JResult (α : Type)
  | ok (a : α)
  | nullPointer
deriving DecidableEq, Repr

/-- `ExampleWS.onMessage(byte[])`: calls `this.wClient.on(...)`
unconditionally, dereferencing `wClient` (`ExampleWS.java`
lines 40-44). -/
def onMessageBinary (s : ExampleWS) (d : List Nat) : JResult ExampleWS :=
  match s.wClient with
  | none => .nullPointer
  | some c => .ok ⟨some ⟨c.binaryReceived ++ [d], c.textReceived⟩⟩

/-- `ExampleWS.onMessage(String)`: calls `this.wClient.on(text)`
unconditionally, dereferencing `wClient` (`ExampleWS.java`
lines 46-50). -/
def onMessageText (s : ExampleWS) (t : String) : JResult ExampleWS :=
  match s.wClient with
  | none => .nullPointer
  | some c => .ok ⟨some ⟨c.binaryReceived, c.textReceived ++ [t]⟩⟩

/-- `ExampleWS.getClient`: returns the `wClient` field as is
(`ExampleWS.java` lines 63-65). -/
def getClient (s : ExampleWS) : Option WClient := s.wClient

end WS

namespace WlList

/-- One `struct wl_list` node: its `prev` and `next` pointers,
addresses modelled as naturals. -/
structure Node where
  prev : Nat
  next : Nat
deriving DecidableEq, Repr

/-- A heap of `wl_list` nodes: every address holds a node. -/
abbrev Heap := Nat → Node

/-- Store a node at an address. -/
def setNode (h : Heap) (a : Nat) (n : Node) : Heap :=
  fun x => if x = a then n else h x

/-- Assign only the `prev` field of the node at `a`. -/
def setPrev (h : Heap) (a p : Nat) : Heap := setNode h a ⟨p, (h a).next⟩

/-- Assign only the `next` field of the node at `a`. -/
def setNext (h : Heap) (a n : Nat) : Heap := setNode h a ⟨(h a).prev, n⟩

/-- Modelled from the spec: `wl_list_init` — the head's `next` and
`prev` both point to the head itself (documentation of `wl_list` in
`wayland-util.h`); the function body is absent from the provided
sources. -/
def wl_list_init (h : Heap) (list : Nat) : Heap :=
  setNode h list ⟨list, list⟩

/-- Modelled from the spec: `wl_list_insert(list, elm)` — splice `elm`
right after `list` by the four pointer assignments
`elm->prev = list; elm->next = list->next; list->next = elm;
elm->next->prev = elm` (documentation of `wl_list_insert` in
`wayland-util.h`); the function body is absent from the provided
sources. -/
def wl_list_insert (h : Heap) (list elm : Nat) : Heap :=
  let h1 := setPrev h elm list
  let h2 := setNext h1 elm (h1 list).next
  let h3 := setNext h2 list elm
  setPrev h3 ((h3 elm).next) elm

/-- Modelled from the spec: `wl_list_empty` — 1 when the head's `next`
points back to the head, 0 otherwise (documentation of
`wl_list_empty` in `wayland-util.h`); the function body is absent
from the provided sources. -/
def wl_list_empty (h : Heap) (list : Nat) : Nat :=
  if (h list).next = list then 1 else 0

/-- Fuelled traversal counting nodes until the head reappears; fuel
bounds the walk on arbitrary heaps. -/
def lengthAux (h : Heap) (head : Nat) : Nat → Nat → Nat → Nat
  | _, acc, 0 => acc
  | cur, acc, fuel + 1 =>
    if cur = head then acc else lengthAux h head (h cur).next (acc + 1) fuel

/-- Modelled from the spec: `wl_list_length` — walk `next` pointers
from the head, counting elements until the head reappears
(documentation of `wl_list_length` in `wayland-util.h`); the function
body is absent from the provided sources, and the walk is fuelled
because a Lean model of an arbitrary heap cannot rely on the
traversal terminating. -/
def wl_list_length (h : Heap) (head : Nat) (fuel : Nat) : Nat :=
  lengthAux h head ((h head).next) 0 fuel

/-- The `next` pointers starting after node `p` run through exactly
the addresses `es` and then return to `head`. -/
def chain (h : Heap) (head : Nat) : Nat → List Nat → Prop
  | p, [] => (h p).next = head
  | p, e :: es => (h p).next = e ∧ chain h head e es

end WlList

namespace Samples

/-- Signature table with one entry: object type 7, opcode 2, argument
kinds uint, string, object, fd. -/
def sampleTable : Nat → Nat → Option (List Wire.ArgKind) :=
  fun ty op => if ty == 7 && op == 2 then some [.uint, .str, .obj, .fd] else none

/-- Registry view with objects 1 and 5 live, both of type 7. -/
def sampleResolve : Nat → Option Nat :=
  fun id => if id == 1 || id == 5 then some 7 else none

/-- A message matching `sampleTable`: sender 1, opcode 2, one argument
of each sample kind. -/
def sampleMsg : Wire.Message := ⟨1, 2, [.uintV 42, .strV [104, 105], .objV 5, .fdV]⟩

/-- Concrete registry with two live client-range objects. -/
def sampleReg : Registry.Reg := ⟨[(1, 7), (5, 9)], Registry.serverIdMin⟩

/-- Multiplexer with one connection, handle 0, owning `sampleReg`. -/
def sampleMux : Mux.MuxState := ⟨[(0, sampleReg)]⟩

/-- A 12-byte buffer whose header declares a total length of 20. -/
def badBytes : List Nat := Wire.u32le 1 ++ Wire.u32le (20 * 65536) ++ [0, 0, 0, 0]

/-- Heap holding one initialized empty list with head at address 1. -/
def sampleHeap : WlList.Heap := WlList.wl_list_init (fun _ => ⟨0, 0⟩) 1

end Samples

namespace Wire

theorem readU32_u32le (v : Nat) (rest : List Nat) (hv : v < 2 ^ 32) :
    readU32 (u32le v ++ rest) = some (v, rest) := by
  simp only [u32le, readU32, List.cons_append, List.nil_append]
  refine congrArg some (Prod.ext ?_ rfl)
  show v % 256 + 256 * (v / 256 % 256 + 256 * (v / 256 ^ 2 % 256 + 256 * (v / 256 ^ 3 % 256))) = v
  omega

theorem take_pad_append (s rest : List Nat) :
    (s ++ (List.replicate (pad4 s.length) 0 ++ rest)).take s.length = s := by
  simp

theorem drop_pad_append (s rest : List Nat) :
    (s ++ (List.replicate (pad4 s.length) 0 ++ rest)).drop (s.length + pad4 s.length) = rest := by
  rw [← List.append_assoc]
  have h : (s ++ List.replicate (pad4 s.length) 0).length = s.length + pad4 s.length := by
    simp
  rw [← h, List.drop_left]

theorem len_pad_append (s rest : List Nat) :
    (s ++ (List.replicate (pad4 s.length) 0 ++ rest)).length
      = s.length + pad4 s.length + rest.length := by
  simp
  omega

theorem decodeArg_str (s rest : List Nat) (hv : s.length < 2 ^ 32) :
    decodeArg .str (encodeArg (.strV s) ++ rest) = some (.strV s, rest) := by
  simp only [encodeArg, decodeArg, List.append_assoc]
  rw [readU32_u32le s.length _ hv]
  dsimp only
  have hle : s.length + pad4 s.length
      ≤ (s ++ (List.replicate (pad4 s.length) 0 ++ rest)).length := by
    rw [len_pad_append]
    omega
  rw [if_pos hle, take_pad_append, drop_pad_append]

theorem decodeArg_arr (s rest : List Nat) (hv : s.length < 2 ^ 32) :
    decodeArg .arr (encodeArg (.arrV s) ++ rest) = some (.arrV s, rest) := by
  simp only [encodeArg, decodeArg, List.append_assoc]
  rw [readU32_u32le s.length _ hv]
  dsimp only
  have hle : s.length + pad4 s.length
      ≤ (s ++ (List.replicate (pad4 s.length) 0 ++ rest)).length := by
    rw [len_pad_append]
    omega
  rw [if_pos hle, take_pad_append, drop_pad_append]

theorem decodeArg_encodeArg (a : ArgVal) (k : ArgKind) (rest : List Nat)
    (hv : validArg a k = true) :
    decodeArg k (encodeArg a ++ rest) = some (a, rest) := by
  cases a <;> cases k <;> simp [validArg] at hv
  case intV.int v =>
    simp only [encodeArg, decodeArg]
    rw [readU32_u32le v rest (by omega)]
    rfl
  case uintV.uint v =>
    simp only [encodeArg, decodeArg]
    rw [readU32_u32le v rest (by omega)]
    rfl
  case fixedV.fixed v =>
    simp only [encodeArg, decodeArg]
    rw [readU32_u32le v rest (by omega)]
    rfl
  case strV.str s =>
    exact decodeArg_str s rest (by omega)
  case objV.obj v =>
    simp only [encodeArg, decodeArg]
    rw [readU32_u32le v rest (by omega)]
    rfl
  case newIdV.newId v =>
    simp only [encodeArg, decodeArg]
    rw [readU32_u32le v rest (by omega)]
    rfl
  case arrV.arr s =>
    exact decodeArg_arr s rest (by omega)
  case fdV.fd =>
    simp [encodeArg, decodeArg]

theorem decodeArgs_encodeArgs (as : List ArgVal) (ks : List ArgKind)
    (hv : validArgs as ks = true) :
    decodeArgs ks (encodeArgs as) = some as := by
  induction as generalizing ks with
  | nil =>
    cases ks with
    | nil => rfl
    | cons k ks => simp [validArgs] at hv
  | cons a as ih =>
    cases ks with
    | nil => simp [validArgs] at hv
    | cons k ks =>
      simp only [validArgs, Bool.and_eq_true] at hv
      simp only [encodeArgs, decodeArgs]
      rw [decodeArg_encodeArg a k _ hv.1]
      dsimp only
      rw [ih ks hv.2]
      rfl

theorem encode_length (m : Message) :
    (encode m).length = 8 + (encodeArgs m.args).length := by
  simp [encode, u32le]
  omega

/-- C1: for every message whose (object type, opcode, arguments) tuple
matches a signature in the table — with the words of the message in
32-bit range and the total length fitting the 16-bit size field —
decoding the bytes produced by encoding the message yields the
message again together with the exact length of the encoded bytes, so
the encoding reproduces the native framing (header packing, argument
order, padding, byte order) exactly. -/
theorem decode_encode_roundtrip (m : Message) (res : Nat → Option Nat)
    (table : Nat → Nat → Option (List ArgKind)) (ty : Nat) (kinds : List ArgKind)
    (hres : res m.senderId = some ty)
    (htab : table ty m.opcode = some kinds)
    (hargs : validArgs m.args kinds = true)
    (hsid : m.senderId < 2 ^ 32)
    (hop : m.opcode < 65536)
    (hlen : 8 + (encodeArgs m.args).length < 65536) :
    decode (encode m) res table = .ok (m, (encode m).length) := by
  obtain ⟨sid, op, args⟩ := m
  simp only at hres htab hargs hsid hop hlen
  unfold decode encode
  dsimp only
  rw [List.append_assoc, readU32_u32le sid _ hsid]
  dsimp only
  have hword : op + (8 + (encodeArgs args).length) * 65536 < 2 ^ 32 := by omega
  rw [readU32_u32le _ _ hword]
  dsimp only
  have hmod : (op + (8 + (encodeArgs args).length) * 65536) % 65536 = op := by omega
  have hdiv : (op + (8 + (encodeArgs args).length) * 65536) / 65536
      = 8 + (encodeArgs args).length := by omega
  rw [hmod, hdiv]
  have hblen : (u32le sid ++ (u32le (op + (8 + (encodeArgs args).length) * 65536)
      ++ encodeArgs args)).length = 8 + (encodeArgs args).length := by
    simp [u32le]
    omega
  rw [if_neg (by rw [hblen]; omega)]
  rw [hres]
  dsimp only
  rw [htab]
  dsimp only
  rw [show 8 + (encodeArgs args).length - 8 = (encodeArgs args).length from by omega]
  rw [List.take_length]
  rw [decodeArgs_encodeArgs args kinds hargs]
  dsimp only
  rw [hblen]

/-- Witness for C1 at a concrete message, registry view and signature
table. -/
theorem decode_encode_roundtrip_witness :
    decode (encode Samples.sampleMsg) Samples.sampleResolve Samples.sampleTable
      = .ok (Samples.sampleMsg, (encode Samples.sampleMsg).length) :=
  decode_encode_roundtrip Samples.sampleMsg Samples.sampleResolve Samples.sampleTable
    7 [.uint, .str, .obj, .fd] (by decide) (by decide) (by decide) (by decide)
    (by decide) (by decide)

/-- C6: whenever the message header declares a total length greater
than the number of bytes available in the buffer, decoding fails with
`MalformedMessage` and consumes zero bytes, leaving the buffer
position unchanged. -/
theorem decode_declared_length_overrun (bytes : List Nat) (res : Nat → Option Nat)
    (table : Nat → Nat → Option (List ArgKind)) (sid w : Nat) (r1 r2 : List Nat)
    (h1 : readU32 bytes = some (sid, r1))
    (h2 : readU32 r1 = some (w, r2))
    (hlen : bytes.length < w / 65536) :
    decode bytes res table = .error .malformedMessage ∧
    consumed (decode bytes res table) = 0 := by
  have hmal : decode bytes res table = .error .malformedMessage := by
    unfold decode
    rw [h1]
    dsimp only
    rw [h2]
    dsimp only
    rw [if_pos (Or.inr hlen)]
  exact ⟨hmal, by rw [hmal]; rfl⟩

/-- Witness for C6: a 12-byte buffer declaring total length 20 decodes
to `MalformedMessage` with zero bytes consumed. -/
theorem decode_declared_length_overrun_witness :
    decode Samples.badBytes Samples.sampleResolve Samples.sampleTable
      = .error .malformedMessage ∧
    consumed (decode Samples.badBytes Samples.sampleResolve Samples.sampleTable) = 0 :=
  decode_declared_length_overrun Samples.badBytes Samples.sampleResolve Samples.sampleTable
    1 (20 * 65536) (u32le (20 * 65536) ++ [0, 0, 0, 0]) [0, 0, 0, 0]
    (by decide) (by decide) (by decide)

end Wire

namespace Registry

theorem resolve_none_iff (r : Reg) (id : Nat) :
    resolve r id = none ↔ ∀ e ∈ r.entries, e.1 ≠ id := by
  unfold resolve
  simp [List.find?_eq_none]

theorem find?_filter_ne (l : List (Nat × Nat)) (id : Nat) :
    (l.filter (fun e => e.1 != id)).find? (fun e => e.1 == id) = none := by
  rw [List.find?_eq_none]
  intro x hx
  have hmem := List.of_mem_filter hx
  simp at hmem ⊢
  exact hmem

theorem destroy_ok_iff (r : Reg) (id : Nat) (r' : Reg) :
    destroy r id = .ok r' ↔
      (resolve r id).isSome = true ∧
      r' = ⟨r.entries.filter (fun e => e.1 != id), r.nextServerId⟩ := by
  unfold destroy
  cases h : resolve r id <;> simp [h, eq_comm]

theorem register_ok_iff (r : Reg) (id ty : Nat) (r' : Reg) :
    register r id ty = .ok r' ↔
      resolve r id = none ∧ r' = ⟨(id, ty) :: r.entries, r.nextServerId⟩ := by
  unfold register
  cases h : resolve r id <;> simp [h, eq_comm]

theorem inv_init : Inv initReg := by
  refine ⟨le_refl _, List.nodup_nil, ?_⟩
  intro e he
  simp [initReg] at he

theorem inv_step (r r' : Reg) (hi : Inv r) (hs : Step r r') : Inv r' := by
  obtain ⟨h1, h2, h3⟩ := hi
  cases hs with
  | registerStep id ty hid hok =>
    obtain ⟨hres, rfl⟩ := (register_ok_iff _ id ty _).1 hok
    refine ⟨h1, ?_, ?_⟩
    · simp only [List.map_cons]
      refine List.nodup_cons.2 ⟨?_, h2⟩
      rw [resolve_none_iff] at hres
      simp only [List.mem_map]
      rintro ⟨e, he, heq⟩
      exact hres e he heq
    · intro e he
      rcases List.mem_cons.1 he with rfl | he'
      · exact Or.inl hid
      · exact h3 e he'
  | destroyStep id hok =>
    obtain ⟨hs', rfl⟩ := (destroy_ok_iff _ id _).1 hok
    refine ⟨h1, ?_, ?_⟩
    · exact List.Nodup.sublist (List.Sublist.map Prod.fst (List.filter_sublist _)) h2
    · intro e he
      exact h3 e (List.mem_of_mem_filter he)
  | allocStep ty =>
    refine ⟨?_, ?_, ?_⟩
    · dsimp [allocServerId]
      omega
    · dsimp [allocServerId]
      refine List.nodup_cons.2 ⟨?_, h2⟩
      simp only [List.mem_map]
      rintro ⟨e, he, heq⟩
      rcases h3 e he with hc | hlt
      · have hsm : serverIdMin ≤ r.nextServerId := h1
        rw [show clientIdMax = 4278190079 from rfl] at hc
        rw [show serverIdMin = 4278190080 from rfl] at hsm
        omega
      · omega
    · intro e he
      dsimp [allocServerId] at he ⊢
      rcases List.mem_cons.1 he with rfl | he'
      · right
        omega
      · rcases h3 e he' with hc | hlt
        · exact Or.inl hc
        · right
          omega

theorem reachable_inv (r : Reg) (h : Reachable r) : Inv r := by
  induction h with
  | refl => exact inv_init
  | tail h1 h2 ih => exact inv_step _ _ ih h2

theorem step_counter_mono (r r' : Reg) (hs : Step r r') :
    r.nextServerId ≤ r'.nextServerId := by
  cases hs with
  | registerStep id ty hid hok =>
    obtain ⟨_, rfl⟩ := (register_ok_iff _ id ty _).1 hok
    exact le_refl _
  | destroyStep id hok =>
    obtain ⟨_, rfl⟩ := (destroy_ok_iff _ id _).1 hok
    exact le_refl _
  | allocStep ty =>
    exact Nat.le_succ _

theorem rtg_counter_mono (r r' : Reg) (h : Relation.ReflTransGen Step r r') :
    r.nextServerId ≤ r'.nextServerId := by
  induction h with
  | refl => exact le_refl _
  | tail h1 h2 ih => exact le_trans ih (step_counter_mono _ _ h2)

/-- C3: on every reachable registry state, `allocate_server_id` issues
an id above the client-allocatable range, the live ids (including the
fresh one) stay pairwise distinct, the issued id was not live before
the call, and any later `allocate_server_id` — after any further legal
operation sequence — issues a strictly greater id. -/
theorem allocServerId_spec (r r' : Reg) (ty ty' : Nat) (hr : Reachable r)
    (hsteps : Relation.ReflTransGen Step (allocServerId r ty).2 r') :
    clientIdMax < (allocServerId r ty).1 ∧
    ((allocServerId r ty).2.entries.map Prod.fst).Nodup ∧
    resolve r (allocServerId r ty).1 = none ∧
    (allocServerId r ty).1 < (allocServerId r' ty').1 := by
  have hi := reachable_inv r hr
  have hi' := inv_step _ _ hi (Step.allocStep r ty)
  obtain ⟨h1, h2, h3⟩ := hi
  refine ⟨?_, hi'.2.1, ?_, ?_⟩
  · dsimp [allocServerId]
    rw [show clientIdMax = 4278190079 from rfl]
    rw [show serverIdMin = 4278190080 from rfl] at h1
    omega
  · rw [resolve_none_iff]
    intro e he
    dsimp [allocServerId]
    rcases h3 e he with hc | hlt
    · rw [show clientIdMax = 4278190079 from rfl] at hc
      rw [show serverIdMin = 4278190080 from rfl] at h1
      omega
    · omega
  · have hmono := rtg_counter_mono _ _ hsteps
    dsimp [allocServerId] at hmono ⊢
    omega

/-- Witness for C3: the first two server allocations on the empty
registry. -/
theorem allocServerId_spec_witness :
    clientIdMax < (allocServerId initReg 0).1 ∧
    ((allocServerId initReg 0).2.entries.map Prod.fst).Nodup ∧
    resolve initReg (allocServerId initReg 0).1 = none ∧
    (allocServerId initReg 0).1 < (allocServerId (allocServerId initReg 0).2 1).1 :=
  allocServerId_spec initReg (allocServerId initReg 0).2 0 1
    Relation.ReflTransGen.refl Relation.ReflTransGen.refl

/-- C4: resolving an id after a successful destroy yields no type, and
resolving on the registry in which nothing was ever registered yields
no type either — a destroyed or never-registered id never resolves to
a live object type. -/
theorem resolve_after_destroy (r r' : Reg) (id : Nat) (hd : destroy r id = .ok r') :
    resolve r' id = none ∧ resolve initReg id = none := by
  obtain ⟨hs, rfl⟩ := (destroy_ok_iff r id r').1 hd
  constructor
  · unfold resolve
    rw [find?_filter_ne]
    rfl
  · rfl

/-- Witness for C4 at a one-entry registry. -/
theorem resolve_after_destroy_witness :
    resolve ⟨[], serverIdMin⟩ 5 = none ∧ resolve initReg 5 = none :=
  resolve_after_destroy ⟨[(5, 7)], serverIdMin⟩ ⟨[], serverIdMin⟩ 5 (by rfl)

/-- C5: `destroy` succeeds exactly when the id is live — a destroy of
a non-live id fails with `UnknownId`, a successful destroy makes an
immediate second destroy of the same id fail with `UnknownId` rather
than be a no-op — and `register` fails with `IdCollision` exactly
when the id is already live. -/
theorem destroy_register_exact (r : Reg) (id ty : Nat) :
    (resolve r id = none → destroy r id = .error .unknownId) ∧
    ((resolve r id).isSome = true ↔ ∃ r', destroy r id = .ok r') ∧
    (∀ r', destroy r id = .ok r' → destroy r' id = .error .unknownId) ∧
    (register r id ty = .error .idCollision ↔ (resolve r id).isSome = true) := by
  refine ⟨?_, ⟨?_, ?_⟩, ?_, ?_⟩
  · intro h
    simp [destroy, h]
  · intro h
    exact ⟨_, (destroy_ok_iff r id _).2 ⟨h, rfl⟩⟩
  · rintro ⟨r', hok⟩
    exact ((destroy_ok_iff r id r').1 hok).1
  · intro r' hok
    obtain ⟨hs, rfl⟩ := (destroy_ok_iff r id r').1 hok
    have hnone : resolve ⟨r.entries.filter (fun e => e.1 != id), r.nextServerId⟩ id = none := by
      unfold resolve
      rw [find?_filter_ne]
      rfl
    simp [destroy, hnone]
  · unfold register
    cases h : resolve r id <;> simp [h]

/-- Witness for C5: destroying a never-registered id on the empty
registry fails with `UnknownId`. -/
theorem destroy_register_exact_witness :
    destroy initReg 5 = .error .unknownId :=
  (destroy_register_exact initReg 5 0).1 (by decide)

end Registry

namespace Mux

/-- C2: for every multiplexer state and every connection, an inbound
frame that the router forwards references only live object ids of
that connection's own registry — the sender and every
object-reference argument resolve; registry validation strictly
precedes forwarding, for all inputs. -/
theorem forwarded_implies_live (s : MuxState) (hnd : Nat)
    (table : Nat → Nat → Option (List Wire.ArgKind)) (bytes : List Nat)
    (m : Wire.Message) (r : Registry.Reg)
    (hconn : (s.conns.find? (fun c => c.1 == hnd)).map (·.2) = some r)
    (hfwd : routeConn s hnd table bytes = some (.forwarded m)) :
    (Registry.resolve r m.senderId).isSome = true ∧
    ∀ id, Wire.ArgVal.objV id ∈ m.args → (Registry.resolve r id).isSome = true := by
  unfold routeConn at hfwd
  rw [hconn] at hfwd
  simp only [Option.map_some', Option.some.injEq] at hfwd
  unfold route at hfwd
  cases hdec : Wire.decode bytes (Registry.resolve r) table with
  | error e =>
    rw [hdec] at hfwd
    exact absurd hfwd (by simp)
  | ok p =>
    obtain ⟨m', n⟩ := p
    rw [hdec] at hfwd
    dsimp only at hfwd
    by_cases hval : validateMessage r m' = true
    · rw [if_pos hval] at hfwd
      have hm : m' = m := by
        cases hfwd
        rfl
      subst hm
      unfold validateMessage at hval
      rw [Bool.and_eq_true] at hval
      refine ⟨hval.1, ?_⟩
      intro id hid
      have hall := List.all_eq_true.1 hval.2 _ hid
      simpa using hall
    · rw [if_neg hval] at hfwd
      exact absurd hfwd (by simp)

/-- Witness for C2: the sample message forwarded on the sample
multiplexer references only live ids. -/
theorem forwarded_implies_live_witness :
    (Registry.resolve Samples.sampleReg Samples.sampleMsg.senderId).isSome = true ∧
    ∀ id, Wire.ArgVal.objV id ∈ Samples.sampleMsg.args →
      (Registry.resolve Samples.sampleReg id).isSome = true :=
  forwarded_implies_live Samples.sampleMux 0 Samples.sampleTable
    (Wire.encode Samples.sampleMsg) Samples.sampleMsg Samples.sampleReg
    (by decide) (by decide)

end Mux

namespace XW

/-- C7: in every controller state other than `Idle` a start request is
rejected with `AlreadyActive`; starting from `Idle` succeeds, a second
start before the first reaches `Running` fails with `AlreadyActive`
while the first proceeds — on the readiness signal the controller is
`Running` with the display number and the ready notification carrying
that display number has been delivered. -/
theorem start_rejected_when_active (c : Controller) (d : Nat)
    (h : c.state ≠ XWState.idle) :
    start c = .error .alreadyActive ∧
    ∃ c1, start initController = .ok c1 ∧ start c1 = .error .alreadyActive ∧
      (serverReady c1 d).state = .running d ∧
      (serverReady c1 d).readySent = c1.readySent ++ [d] := by
  constructor
  · obtain ⟨st, ns⟩ := c
    cases st with
    | idle => exact absurd rfl h
    | starting => rfl
    | running dd => rfl
    | terminating => rfl
  · exact ⟨⟨.starting, []⟩, rfl, rfl, rfl, rfl⟩

/-- Witness for C7: a controller in the `Starting` state rejects a
start request with `AlreadyActive`. -/
theorem start_rejected_when_active_witness :
    start ⟨.starting, []⟩ = .error .alreadyActive ∧
    ∃ c1, start initController = .ok c1 ∧ start c1 = .error .alreadyActive ∧
      (serverReady c1 1).state = .running 1 ∧
      (serverReady c1 1).readySent = c1.readySent ++ [1] :=
  start_rejected_when_active ⟨.starting, []⟩ 1 (by decide)

end XW

namespace WS

/-- C8: the send callback installed at connect time transmits exactly
bytes 0 through limit-1 of the outbound message buffer, for every
position the buffer's read cursor is at when the callback runs — the
buffer is rewound before copying, so the full framed message is sent
regardless of prior partial reads. -/
theorem sendCallback_sends_whole_buffer (b : ByteBuffer) (hlim : b.limit ≤ b.data.length) :
    sendCallback b = b.data.take b.limit ∧ (sendCallback b).length = b.limit := by
  have h1 : sendCallback b = b.data.take b.limit := by
    unfold sendCallback getBytes rewind
    dsimp only
    rw [List.drop_zero]
  refine ⟨h1, ?_⟩
  rw [h1, List.length_take]
  omega

/-- Witness for C8: a buffer whose cursor sits mid-way still sends all
bytes from position 0. -/
theorem sendCallback_sends_whole_buffer_witness :
    sendCallback ⟨[1, 2, 3, 4], 2, 4⟩ = ([1, 2, 3, 4] : List Nat).take 4 ∧
    (sendCallback ⟨[1, 2, 3, 4], 2, 4⟩).length = 4 :=
  sendCallback_sends_whole_buffer ⟨[1, 2, 3, 4], 2, 4⟩ (by decide)

/-- C9: the wrapped `WClient` is created only inside `onConnect` — on
an `ExampleWS` on which `onConnect` has not run, `getClient` returns
`null`, and delivering a binary or text frame via `onMessage`
dereferences the null client (`NullPointerException`) rather than
being rejected with an error. -/
theorem client_null_before_connect :
    getClient mkExampleWS = none ∧
    (∀ s : ExampleWS, getClient (onConnect s) = some ⟨[], []⟩) ∧
    (∀ d, onMessageBinary mkExampleWS d = .nullPointer) ∧
    (∀ t, onMessageText mkExampleWS t = .nullPointer) :=
  ⟨rfl, fun _ => rfl, fun _ => rfl, fun _ => rfl⟩

end WS

namespace WlList

theorem setPrev_next (h : Heap) (a p x : Nat) : (setPrev h a p x).next = (h x).next := by
  unfold setPrev setNode
  by_cases hx : x = a
  · subst hx
    simp
  · simp [hx]

theorem setNext_next_same (h : Heap) (a n : Nat) : (setNext h a n a).next = n := by
  simp [setNext, setNode]

theorem setNext_next_other (h : Heap) (a n x : Nat) (hx : x ≠ a) :
    (setNext h a n x).next = (h x).next := by
  simp [setNext, setNode, hx]

theorem insert_next (h : Heap) (head elm x : Nat) (hne : elm ≠ head) :
    (wl_list_insert h head elm x).next =
      if x = head then elm else if x = elm then (h head).next else (h x).next := by
  unfold wl_list_insert
  rw [setPrev_next]
  by_cases hxh : x = head
  · subst hxh
    rw [setNext_next_same, if_pos rfl]
  · rw [setNext_next_other _ _ _ _ hxh, if_neg hxh]
    by_cases hxe : x = elm
    · subst hxe
      rw [setNext_next_same, setPrev_next, if_pos rfl]
    · rw [setNext_next_other _ _ _ _ hxe, setPrev_next, if_neg hxe]

theorem chain_shift (h h' : Heap) (head : Nat) :
    ∀ (es : List Nat) (p q : Nat), chain h head p es →
      (h' q).next = (h p).next →
      (∀ x ∈ es, (h' x).next = (h x).next) →
      chain h' head q es := by
  intro es
  induction es with
  | nil =>
    intro p q hc hq _
    exact hq.trans hc
  | cons e es ih =>
    intro p q hc hq hall
    obtain ⟨h1, h2⟩ := hc
    refine ⟨hq.trans h1, ?_⟩
    exact ih e e h2 (hall e (List.mem_cons_self e es)) (fun x hx => hall x (List.mem_cons_of_mem _ hx))

theorem insert_chain (h : Heap) (head elm : Nat) (es : List Nat)
    (hc : chain h head head es) (hh : head ∉ es) (he : elm ∉ es) (hne : elm ≠ head) :
    chain (wl_list_insert h head elm) head head (elm :: es) := by
  have hnext := fun x => insert_next h head elm x hne
  refine ⟨?_, ?_⟩
  · rw [hnext head]
    simp
  · apply chain_shift h (wl_list_insert h head elm) head es head elm hc
    · rw [hnext elm]
      simp [hne]
    · intro x hx
      have hxh : x ≠ head := fun hh2 => hh (hh2 ▸ hx)
      have hxe : x ≠ elm := fun hh2 => he (hh2 ▸ hx)
      rw [hnext x]
      simp [hxh, hxe]

theorem lengthAux_chain (h : Heap) (head : Nat) :
    ∀ (es : List Nat) (p acc fuel : Nat), chain h head p es → head ∉ es →
      es.length + 1 ≤ fuel →
      lengthAux h head ((h p).next) acc fuel = acc + es.length := by
  intro es
  induction es with
  | nil =>
    intro p acc fuel hc _ hf
    obtain ⟨f, rfl⟩ : ∃ f, fuel = f + 1 := ⟨fuel - 1, by omega⟩
    rw [hc]
    simp [lengthAux]
  | cons e es ih =>
    intro p acc fuel hc hh hf
    obtain ⟨h1, h2⟩ := hc
    obtain ⟨f, rfl⟩ : ∃ f, fuel = f + 1 := ⟨fuel - 1, by omega⟩
    rw [h1]
    have hne : e ≠ head := fun heq => hh (heq ▸ List.mem_cons_self e es)
    simp only [lengthAux, if_neg hne]
    rw [ih e (acc + 1) f h2 (fun hx => hh (List.mem_cons_of_mem _ hx)) (by simp at hf ⊢; omega)]
    simp [List.length_cons]
    omega

theorem wl_list_length_chain (h : Heap) (head fuel : Nat) (es : List Nat)
    (hc : chain h head head es) (hh : head ∉ es) (hf : es.length + 1 ≤ fuel) :
    wl_list_length h head fuel = es.length := by
  unfold wl_list_length
  have hone := lengthAux_chain h head es head 0 fuel hc hh hf
  simpa using hone

/-- C10: immediately after `wl_list_init` the head's `next` and `prev`
both point to the head itself, `wl_list_empty` returns 1 and
`wl_list_length` returns 0; after `wl_list_insert` of one fresh
element into a well-formed list, `wl_list_empty` returns 0 and
`wl_list_length` is one greater than before the insertion. -/
theorem init_insert_spec (h : Heap) (head elm fuel : Nat) (es : List Nat)
    (hc : chain h head head es) (hh : head ∉ es) (he : elm ∉ es)
    (hne : elm ≠ head) (hf : es.length + 2 ≤ fuel) :
    (wl_list_init h head) head = ⟨head, head⟩ ∧
    wl_list_empty (wl_list_init h head) head = 1 ∧
    (∀ f, wl_list_length (wl_list_init h head) head f = 0) ∧
    wl_list_empty (wl_list_insert h head elm) head = 0 ∧
    wl_list_length h head fuel = es.length ∧
    wl_list_length (wl_list_insert h head elm) head fuel = es.length + 1 := by
  have hinit : (wl_list_init h head) head = ⟨head, head⟩ := by
    simp [wl_list_init, setNode]
  have hinsnext : (wl_list_insert h head elm head).next = elm := by
    rw [insert_next h head elm head hne]
    simp
  refine ⟨hinit, ?_, ?_, ?_, ?_, ?_⟩
  · unfold wl_list_empty
    rw [hinit, if_pos rfl]
  · intro f
    unfold wl_list_length
    rw [hinit]
    cases f with
    | zero => rfl
    | succ f => simp [lengthAux]
  · unfold wl_list_empty
    rw [hinsnext, if_neg hne]
  · exact wl_list_length_chain h head fuel es hc hh (by omega)
  · have hch' := insert_chain h head elm es hc hh he hne
    have hh' : head ∉ elm :: es := by
      intro hmem
      rcases List.mem_cons.1 hmem with heq | hmem'
      · exact hne heq.symm
      · exact hh hmem'
    have hlen := wl_list_length_chain (wl_list_insert h head elm) head fuel (elm :: es) hch' hh'
      (by simp only [List.length_cons]; omega)
    simpa using hlen

/-- Witness for C10: an initialized empty list at address 1 and the
insertion of the single element at address 2. -/
theorem init_insert_spec_witness :
    (wl_list_init Samples.sampleHeap 1) 1 = ⟨1, 1⟩ ∧
    wl_list_empty (wl_list_init Samples.sampleHeap 1) 1 = 1 ∧
    (∀ f, wl_list_length (wl_list_init Samples.sampleHeap 1) 1 f = 0) ∧
    wl_list_empty (wl_list_insert Samples.sampleHeap 1 2) 1 = 0 ∧
    wl_list_length Samples.sampleHeap 1 2 = List.length ([] : List Nat) ∧
    wl_list_length (wl_list_insert Samples.sampleHeap 1 2) 1 2 = List.length ([] : List Nat) + 1 :=
  init_insert_spec Samples.sampleHeap 1 2 2 [] (by rfl) (by simp) (by simp) (by decide) (by decide)

end WlList
